import Mathlib

/-!
Shallow embedding of `neurokit2/complexity/entropy_multiscale.py`.

The module orchestrates multiscale entropy: it selects scale factors,
coarse-grains the signal per scale, applies an entropy estimator, combines
per-scale results and aggregates them into a scalar index.  The external
collaborators (`_get_scales`, `complexity_tolerance`,
`complexity_coarsegraining`, `entropy_sample`, `entropy_approximate`,
`_get_coarsegrained_rolling`, `_phi`, `_phi_divide`) live outside the
embedded file and are taken as parameters of the embedded definitions.

Floating-point values are modelled by `Fl`: not-a-number, the two
infinities, and finite values as exact rationals.  IEEE comparison
semantics (NaN is never equal to anything, including itself) is modelled
by `npEq`.
-/

/-- Model of an IEEE floating-point value: NaN, +inf, -inf, or a finite
value represented exactly as a rational. -/
inductive Fl where
  | nan : Fl
  | inf : Fl
  | ninf : Fl
  | fin : ℚ → Fl
deriving DecidableEq

namespace Fl

/-- `np.isfinite`: true exactly on finite values. -/
def isfinite : Fl → Bool
  | fin _ => true
  | _ => false

/-- `np.isnan`: true exactly on NaN. -/
def isnan : Fl → Bool
  | nan => true
  | _ => false

/-- IEEE equality `==` as numpy evaluates it elementwise: NaN compares
unequal to everything, including itself. -/
def npEq : Fl → Fl → Bool
  | nan, _ => false
  | _, nan => false
  | inf, inf => true
  | inf, _ => false
  | ninf, ninf => true
  | ninf, _ => false
  | fin a, fin b => a == b
  | fin _, _ => false

/-- IEEE floating-point addition on the model (no rounding: finite values
are exact rationals). -/
def fadd : Fl → Fl → Fl
  | nan, _ => nan
  | _, nan => nan
  | inf, ninf => nan
  | ninf, inf => nan
  | inf, _ => inf
  | _, inf => inf
  | ninf, _ => ninf
  | _, ninf => ninf
  | fin a, fin b => fin (a + b)

/-- IEEE floating-point division on the model: 0/0 and inf/inf are NaN,
finite/0 is a signed infinity, finite/inf is 0. -/
def fdiv : Fl → Fl → Fl
  | nan, _ => nan
  | _, nan => nan
  | inf, inf => nan
  | inf, ninf => nan
  | ninf, inf => nan
  | ninf, ninf => nan
  | inf, fin q => if q < 0 then ninf else inf
  | ninf, fin q => if q < 0 then inf else ninf
  | fin _, inf => fin 0
  | fin _, ninf => fin 0
  | fin a, fin b =>
      if b = 0 then (if a = 0 then nan else if a < 0 then ninf else inf)
      else fin (a / b)

end Fl

open Fl

/-- `np.sum` over a sequence of floats (exact rationals, IEEE rules for
NaN and infinities). -/
def npSum (xs : List Fl) : Fl := xs.foldr fadd (fin 0)

/-- `np.mean` over a sequence of floats: the sum divided by the length;
on an empty sequence this is 0/0, i.e. NaN, matching numpy. -/
def npMean (xs : List Fl) : Fl := fdiv (npSum xs) (fin (xs.length : ℚ))

/-- `np.trapz` with unit spacing: the sum of `(y i + y (i+1)) / 2`; 0 on
an empty or singleton sequence, matching numpy. -/
def npTrapz : List Fl → Fl
  | [] => fin 0
  | [_] => fin 0
  | x :: y :: rest => fadd (fdiv (fadd x y) (fin 2)) (npTrapz (y :: rest))

/-- Exact rational trapezoidal rule at unit spacing, used to state what
the aggregation computes on finite data. -/
def ratTrapz : List ℚ → ℚ
  | [] => 0
  | [_] => 0
  | x :: y :: rest => (x + y) / 2 + ratTrapz (y :: rest)

/-- The finite entries of a float sequence, in order, as exact rationals. -/
def finiteParts (xs : List Fl) : List ℚ :=
  xs.filterMap (fun v => match v with | fin q => some q | _ => none)

/-- A Python-level signal argument as `entropy_multiscale` sees it: the
sample data together with whether the object is an `np.ndarray` /
`pd.DataFrame` and its number of dimensions. -/
structure PySignal where
  isArrayLike : Bool
  ndim : ℕ
  data : List Fl
deriving DecidableEq

/-- The result of `complexity_coarsegraining`: a 1-D coarse-grained
series, or a 2-D stack of time-shifted coarse-grained series. -/
inductive Coarse where
  | one : List Fl → Coarse
  | two : List (List Fl) → Coarse

/-- The keyword arguments forwarded by the caller: a possible `delay`
entry plus the remaining keyword arguments (of an arbitrary type `R`). -/
structure KW (R : Type) where
  delay : Option ℤ
  rest : R

/-- The external collaborators consumed by the entry point
`entropy_multiscale`, over scale-policy type `S`, tolerance-policy type
`T` and remaining-kwargs type `R`:
`getScales` models `_get_scales`, `tolEst` models
`complexity_tolerance(...)[0]`, `coarsegrain` models
`complexity_coarsegraining`, and `sampEn` / `appEn` model
`entropy_sample(...)[0]` / `entropy_approximate(...)[0]` as functions of
(series, delay, dimension, tolerance, kwargs). -/
structure Externals (S T R : Type) where
  getScales : PySignal → S → ℕ → List ℕ
  tolEst : PySignal → T → ℕ → Fl
  coarsegrain : PySignal → ℕ → R → Coarse
  sampEn : List Fl → ℕ → ℕ → Fl → R → Fl
  appEn : List Fl → ℕ → ℕ → Fl → R → Fl

/-- The inner helper `_validmean`: keep the finite entries; if none
remain return NaN, else their `np.mean`. -/
def _validmean (xs : List Fl) : Fl :=
  let x := xs.filter isfinite
  if x.length = 0 then nan else npMean x

/-- The inner helper `_run_algo`: on a 1-D coarse-grained series run the
estimator once with `delay=1`; on a 2-D stack run it on each row with
`delay=1` and take the NaN-robust mean of the row results. -/
def _run_algo {R : Type} (algo : List Fl → ℕ → ℕ → Fl → R → Fl)
    (coarse : Coarse) (dimension : ℕ) (tolerance : Fl) (rest : R) : Fl :=
  match coarse with
  | Coarse.one xs => algo xs 1 dimension tolerance rest
  | Coarse.two rows =>
      _validmean (rows.map (fun row => algo row 1 dimension tolerance rest))

/-- The info record assembled by `entropy_multiscale`: Dimension, Scale,
Tolerance and the per-scale Value profile. -/
structure MSInfo where
  Dimension : ℕ
  Scale : List ℕ
  Tolerance : Fl
  Value : List Fl
deriving DecidableEq

/-- The body of `entropy_multiscale` after the sanity checks: pop
`delay` from kwargs, compute the scales and the tolerance once, pick the
estimator by `approximate`, and compute one per-scale value per scale
factor. -/
def msInfo {S T R : Type} (ext : Externals S T R) (signal : PySignal)
    (scale : S) (dimension : ℕ) (tolerance : T) (approximate : Bool)
    (kwargs : KW R) : MSInfo :=
  let rest := kwargs.rest
  let scales := ext.getScales signal scale dimension
  let tol := ext.tolEst signal tolerance dimension
  let algo := if approximate = false then ext.sampEn else ext.appEn
  { Dimension := dimension
    Scale := scales
    Tolerance := tol
    Value := scales.map (fun s =>
      _run_algo algo (ext.coarsegrain signal s rest) dimension tol rest) }

/-- Lines 266-271 of the source: keep the finite per-scale values, then
`np.trapz` at unit spacing divided by the retained count. -/
def aggregateAUC (vals : List Fl) : Fl :=
  let mse := vals.filter isfinite
  fdiv (npTrapz mse) (fin (mse.length : ℚ))

/-- The message of the `ValueError` raised on multidimensional input. -/
def multidimMsg : String :=
  "Multidimensional inputs (e.g., matrices or multichannel data) are not supported yet."

/-- The entry point `entropy_multiscale`: reject array-like input with
more than one dimension, otherwise build the info record and return the
area-under-curve index with it.  `composite`, `refined` and `fuzzy` are
accepted exactly as in the source signature. -/
def entropy_multiscale {S T R : Type} (ext : Externals S T R)
    (signal : PySignal) (scale : S) (dimension : ℕ) (tolerance : T)
    (approximate composite refined fuzzy : Bool) (kwargs : KW R) :
    Except String (Fl × MSInfo) :=
  if signal.isArrayLike ∧ 1 < signal.ndim then
    Except.error multidimMsg
  else
    let info := msInfo ext signal scale dimension tolerance approximate kwargs
    Except.ok (aggregateAUC info.Value, info)

/-- Total element count of a 2-D stack, `y.size` in numpy. -/
def stackSize (rows : List (List Fl)) : ℕ :=
  (rows.map List.length).sum

/-- `_entropy_multiscale_mse` (lines 350-357): coarse-grain once at
scale `tau`; if the series has fewer than `10 ^ dimension` samples
return NaN, else evaluate `entropy_sample` once with `delay=1`.
`coarse1` models `complexity_coarsegraining(signal, scale=tau)` and
`sampEnF` models `entropy_sample(...)[0]` as a function of
(series, delay, dimension, tolerance, fuzzy, kwargs). -/
def _entropy_multiscale_mse {R : Type} (coarse1 : PySignal → ℕ → List Fl)
    (sampEnF : List Fl → ℕ → ℕ → Fl → Bool → R → Fl)
    (signal : PySignal) (tau dimension : ℕ) (tolerance : Fl) (fuzzy : Bool)
    (rest : R) : Fl :=
  let y := coarse1 signal tau
  if y.length < 10 ^ dimension then nan
  else sampEnF y 1 dimension tolerance fuzzy rest

/-- `_entropy_multiscale_cmse` (lines 360-378): build the stack of
time-shifted coarse-grained rows; if the total element count is below
`10 ^ dimension` return NaN; else evaluate `entropy_sample` on each row,
and — re-creating the source's test `(mse_y == np.inf) | (mse_y == -np.inf)
| (mse_y == np.nan)`, whose last disjunct is always false under IEEE
equality — return NaN when every row matches that test, else the mean of
the rows that are neither infinite nor NaN.  `rolling` models
`_get_coarsegrained_rolling`. -/
def _entropy_multiscale_cmse {R : Type}
    (rolling : PySignal → ℕ → List (List Fl))
    (sampEnF : List Fl → ℕ → ℕ → Fl → Bool → R → Fl)
    (signal : PySignal) (tau dimension : ℕ) (tolerance : Fl) (fuzzy : Bool)
    (rest : R) : Fl :=
  let y := rolling signal tau
  if stackSize y < 10 ^ dimension then nan
  else
    let mse_y := y.map (fun row => sampEnF row 1 dimension tolerance fuzzy rest)
    if (mse_y.filter
          (fun v => npEq v inf || npEq v ninf || npEq v nan)).length
        = mse_y.length then
      nan
    else
      npMean (mse_y.filter
        (fun v => !npEq v inf && !npEq v ninf && !v.isnan))

/-- `_entropy_multiscale_rcmse` (lines 381-400): build the stack of
time-shifted coarse-grained rows; if the total element count is below
`10 ^ dimension` return NaN; else compute the phi pair of each row with
`delay=1` and `approximate=False`, average each of the two components
across rows, and apply `_phi_divide` once to the averaged pair.
`phi` models `_phi` as a function of (series, delay, dimension,
tolerance, fuzzy, approximate, kwargs) and `phi_divide` models
`_phi_divide`. -/
def _entropy_multiscale_rcmse {R : Type}
    (rolling : PySignal → ℕ → List (List Fl))
    (phi : List Fl → ℕ → ℕ → Fl → Bool → Bool → R → Fl × Fl)
    (phi_divide : Fl × Fl → Fl)
    (signal : PySignal) (tau dimension : ℕ) (tolerance : Fl) (fuzzy : Bool)
    (rest : R) : Fl :=
  let y := rolling signal tau
  if stackSize y < 10 ^ dimension then nan
  else
    let phis := y.map (fun row => phi row 1 dimension tolerance fuzzy false rest)
    phi_divide (npMean (phis.map Prod.fst), npMean (phis.map Prod.snd))

/-- `_entropy_multiscale` (lines 283-329): the internal per-scale
dispatcher.  For each scale factor it selects the plain, composite or
refined-composite helper according to the `refined` and `composite`
flags, forwarding `fuzzy` to all three. -/
def _entropy_multiscale_vals {R : Type}
    (coarse1 : PySignal → ℕ → List Fl)
    (rolling : PySignal → ℕ → List (List Fl))
    (sampEnF : List Fl → ℕ → ℕ → Fl → Bool → R → Fl)
    (phi : List Fl → ℕ → ℕ → Fl → Bool → Bool → R → Fl × Fl)
    (phi_divide : Fl × Fl → Fl)
    (signal : PySignal) (tolerance : Fl) (scale_factors : List ℕ)
    (dimension : ℕ) (composite fuzzy refined : Bool) (rest : R) : List Fl :=
  scale_factors.map (fun tau =>
    if refined = false ∧ composite = false then
      _entropy_multiscale_mse coarse1 sampEnF signal tau dimension tolerance
        fuzzy rest
    else if refined = false ∧ composite = true then
      _entropy_multiscale_cmse rolling sampEnF signal tau dimension tolerance
        fuzzy rest
    else
      _entropy_multiscale_rcmse rolling phi phi_divide signal tau dimension
        tolerance fuzzy rest)

/-- The composite (CMSE) per-scale value as the specification words it:
NaN when the total element count across the stack is below
`10 ^ dimension`, otherwise the arithmetic mean of the per-row entropy
estimates after discarding every non-finite row result (the mean of an
empty sequence being NaN). -/
def cmse_spec {R : Type} (rolling : PySignal → ℕ → List (List Fl))
    (sampEnF : List Fl → ℕ → ℕ → Fl → Bool → R → Fl)
    (signal : PySignal) (tau dimension : ℕ) (tolerance : Fl) (fuzzy : Bool)
    (rest : R) : Fl :=
  let y := rolling signal tau
  if stackSize y < 10 ^ dimension then nan
  else
    npMean ((y.map (fun row => sampEnF row 1 dimension tolerance fuzzy rest)).filter
      isfinite)

/-- The refined-composite combination as the specification words it:
evaluate the phi pair on every time-shifted coarse-grained row, average
the two components independently across rows, and apply the log-ratio
step `_phi_divide` exactly once to the averaged pair. -/
def rcmse_spec {R : Type} (rolling : PySignal → ℕ → List (List Fl))
    (phi : List Fl → ℕ → ℕ → Fl → Bool → Bool → R → Fl × Fl)
    (phi_divide : Fl × Fl → Fl)
    (signal : PySignal) (tau dimension : ℕ) (tolerance : Fl) (fuzzy : Bool)
    (rest : R) : Fl :=
  let rows := rolling signal tau
  let phis := rows.map (fun row => phi row 1 dimension tolerance fuzzy false rest)
  phi_divide (npMean (phis.map Prod.fst), npMean (phis.map Prod.snd))

/-- The keep-filter of the CMSE else-branch (`!= inf`, `!= -inf`,
`~isnan`) holds exactly on finite values. -/
theorem cmse_keep_pred_eq_isfinite (v : Fl) :
    (!npEq v inf && !npEq v ninf && !v.isnan) = v.isfinite := by
  cases v <;> rfl

/-- A value matching the CMSE drop-test (`== inf`, `== -inf` or
`== nan`, under IEEE equality) is not finite. -/
theorem cmse_drop_pred_not_finite (v : Fl)
    (h : (npEq v inf || npEq v ninf || npEq v nan) = true) :
    v.isfinite = false := by
  cases v with
  | nan => rfl
  | inf => rfl
  | ninf => rfl
  | fin q => exact absurd h (by simp [npEq])

/-- Filtering a float sequence to its finite values is the same as
mapping `fin` over its finite parts. -/
theorem filter_isfinite_eq_map_fin (xs : List Fl) :
    xs.filter isfinite = (finiteParts xs).map fin := by
  induction xs with
  | nil => rfl
  | cons x xs ih =>
      cases x <;> simp [finiteParts, List.filter_cons, List.filterMap_cons,
        isfinite, ih]

/-- `np.sum` of finite values is the finite exact sum. -/
theorem npSum_map_fin (qs : List ℚ) : npSum (qs.map fin) = fin qs.sum := by
  induction qs with
  | nil => rfl
  | cons q qs ih =>
      show fadd (fin q) (npSum (qs.map fin)) = fin (q + qs.sum)
      rw [ih]; rfl

/-- `np.trapz` of finite values is the finite exact trapezoidal sum. -/
theorem npTrapz_map_fin (qs : List ℚ) : npTrapz (qs.map fin) = fin (ratTrapz qs) := by
  induction qs using ratTrapz.induct with
  | case1 => rfl
  | case2 x => rfl
  | case3 x y rest ih =>
      simp only [List.map_cons] at ih ⊢
      rw [npTrapz, ratTrapz, ih]
      have h2 : fdiv (fadd (fin x) (fin y)) (fin 2) = fin ((x + y) / 2) := by
        simp [fadd, fdiv]
      rw [h2]; rfl

/-- Aggregation over a profile with no finite entry is NaN (0/0). -/
theorem aggregateAUC_all_nonfinite (vals : List Fl)
    (h : ∀ v ∈ vals, v.isfinite = false) : aggregateAUC vals = nan := by
  have hf : vals.filter isfinite = [] :=
    List.filter_eq_nil_iff.mpr (fun v hv => by simp [h v hv])
  unfold aggregateAUC
  rw [hf]
  decide

/-- Aggregation over a profile with at least one finite entry is the
exact trapezoidal integral of the finite parts divided by their count. -/
theorem aggregateAUC_finite_profile (vals : List Fl)
    (h : finiteParts vals ≠ []) :
    aggregateAUC vals
      = fin (ratTrapz (finiteParts vals) / ((finiteParts vals).length : ℚ)) := by
  unfold aggregateAUC
  rw [filter_isfinite_eq_map_fin]
  show fdiv (npTrapz ((finiteParts vals).map fin))
      (fin ((((finiteParts vals).map fin).length : ℕ) : ℚ)) = _
  rw [npTrapz_map_fin, List.length_map]
  have hlen : ((finiteParts vals).length : ℚ) ≠ 0 := by
    intro hh
    exact h (List.length_eq_zero.mp (by exact_mod_cast hh))
  simp [fdiv, hlen]

/-- Two estimators that agree at `delay = 1` give `_run_algo` the same
value on every coarse-grained input. -/
theorem _run_algo_delay1 {R : Type} (a1 a2 : List Fl → ℕ → ℕ → Fl → R → Fl)
    (coarse : Coarse) (dimension : ℕ) (tolerance : Fl) (rest : R)
    (h : ∀ xs dim tol rr, a1 xs 1 dim tol rr = a2 xs 1 dim tol rr) :
    _run_algo a1 coarse dimension tolerance rest
      = _run_algo a2 coarse dimension tolerance rest := by
  cases coarse with
  | one xs => exact h xs dimension tolerance rest
  | two rows =>
      show _validmean _ = _validmean _
      congr 1
      exact List.map_congr_left (fun row _ => h row dimension tolerance rest)

/-- Claim C1: the entry point `entropy_multiscale` is claimed to compute
each per-scale value with the variant implied by (composite, refined)
and to forward fuzzy to the estimator.  In the code the body of
`entropy_multiscale` never reads `composite`, `refined` or `fuzzy`: its
result is identical for every value of the three flags, so the
flag-implied variant dispatch (present only in the uncalled internal
`_entropy_multiscale_vals`) never happens. -/
theorem entropy_multiscale_ignores_variant_flags {S T R : Type}
    (ext : Externals S T R) (signal : PySignal) (scale : S)
    (dimension : ℕ) (tolerance : T)
    (approximate composite refined fuzzy : Bool) (kwargs : KW R) :
    entropy_multiscale ext signal scale dimension tolerance approximate
        composite refined fuzzy kwargs
      = entropy_multiscale ext signal scale dimension tolerance approximate
        false false false kwargs := rfl

/-- Claim C2: whenever the stack of time-shifted coarse-grained rows is
large enough, the refined-composite per-scale value computes the phi
pair of every row, averages the two components independently across
rows, and applies the log-ratio step `_phi_divide` exactly once to the
averaged pair — the spec-side `rcmse_spec` — rather than averaging
per-row entropy values. -/
theorem rcmse_averages_phi_before_log {R : Type}
    (rolling : PySignal → ℕ → List (List Fl))
    (phi : List Fl → ℕ → ℕ → Fl → Bool → Bool → R → Fl × Fl)
    (phi_divide : Fl × Fl → Fl)
    (signal : PySignal) (tau dimension : ℕ) (tolerance : Fl) (fuzzy : Bool)
    (rest : R) (h : 10 ^ dimension ≤ stackSize (rolling signal tau)) :
    _entropy_multiscale_rcmse rolling phi phi_divide signal tau dimension
        tolerance fuzzy rest
      = rcmse_spec rolling phi phi_divide signal tau dimension tolerance
        fuzzy rest := by
  unfold _entropy_multiscale_rcmse rcmse_spec
  rw [if_neg (not_lt.mpr h)]

/-- Witness for C2 at a concrete stack of two rows with exact phi data. -/
theorem rcmse_averages_phi_before_log_witness :
    _entropy_multiscale_rcmse (R := Unit) (fun _ _ => [[fin 1], [fin 3]])
        (fun row _ _ _ _ _ _ => (npSum row, fin 2)) (fun p => fadd p.1 p.2)
        ⟨false, 1, [fin 1, fin 3]⟩ 2 0 (fin 1) false ()
      = rcmse_spec (R := Unit) (fun _ _ => [[fin 1], [fin 3]])
        (fun row _ _ _ _ _ _ => (npSum row, fin 2)) (fun p => fadd p.1 p.2)
        ⟨false, 1, [fin 1, fin 3]⟩ 2 0 (fin 1) false () :=
  rcmse_averages_phi_before_log _ _ _ _ _ _ _ _ _ (by decide)

/-- Claim C3: the composite (CMSE) per-scale value is NaN when the total
element count across the stack is below `10 ^ dimension`, and otherwise
equals the arithmetic mean of the per-row entropy estimates after
discarding every non-finite row result: `_entropy_multiscale_cmse`
coincides with the spec-side `cmse_spec` on all inputs. -/
theorem cmse_matches_spec {R : Type}
    (rolling : PySignal → ℕ → List (List Fl))
    (sampEnF : List Fl → ℕ → ℕ → Fl → Bool → R → Fl)
    (signal : PySignal) (tau dimension : ℕ) (tolerance : Fl) (fuzzy : Bool)
    (rest : R) :
    _entropy_multiscale_cmse rolling sampEnF signal tau dimension tolerance
        fuzzy rest
      = cmse_spec rolling sampEnF signal tau dimension tolerance fuzzy
        rest := by
  unfold _entropy_multiscale_cmse cmse_spec
  by_cases hsize : stackSize (rolling signal tau) < 10 ^ dimension
  · rw [if_pos hsize, if_pos hsize]
  · rw [if_neg hsize, if_neg hsize]
    by_cases hall :
        (((rolling signal tau).map
            (fun row => sampEnF row 1 dimension tolerance fuzzy rest)).filter
          (fun v => npEq v inf || npEq v ninf || npEq v nan)).length
        = ((rolling signal tau).map
            (fun row => sampEnF row 1 dimension tolerance fuzzy rest)).length
    · rw [if_pos hall]
      have hmem := List.filter_length_eq_length.mp hall
      have hnil : ((rolling signal tau).map
          (fun row => sampEnF row 1 dimension tolerance fuzzy rest)).filter
            isfinite = [] :=
        List.filter_eq_nil_iff.mpr (fun v hv => by
          simp [cmse_drop_pred_not_finite v (hmem v hv)])
      rw [hnil]
      decide
    · rw [if_neg hall]
      congr 1
      exact List.filter_congr (fun v _ => cmse_keep_pred_eq_isfinite v)

/-- Claim C4: the plain (MSE) per-scale value is NaN when the
coarse-grained series is shorter than `10 ^ dimension`, and otherwise is
exactly one evaluation of the entropy estimator on that series. -/
theorem mse_threshold_and_single_eval {R : Type}
    (coarse1 : PySignal → ℕ → List Fl)
    (sampEnF : List Fl → ℕ → ℕ → Fl → Bool → R → Fl)
    (signal : PySignal) (tau dimension : ℕ) (tolerance : Fl) (fuzzy : Bool)
    (rest : R) :
    ((coarse1 signal tau).length < 10 ^ dimension →
      _entropy_multiscale_mse coarse1 sampEnF signal tau dimension tolerance
        fuzzy rest = nan)
    ∧ (10 ^ dimension ≤ (coarse1 signal tau).length →
      _entropy_multiscale_mse coarse1 sampEnF signal tau dimension tolerance
        fuzzy rest
        = sampEnF (coarse1 signal tau) 1 dimension tolerance fuzzy rest) := by
  constructor
  · intro h
    unfold _entropy_multiscale_mse
    rw [if_pos h]
  · intro h
    unfold _entropy_multiscale_mse
    rw [if_neg (not_lt.mpr h)]

/-- Witness for C4: a two-sample coarse series at dimension 2 is below
the floor of 100 samples, so the plain per-scale value is NaN; at
dimension 0 the floor is met and the estimator value is returned. -/
theorem mse_threshold_and_single_eval_witness :
    _entropy_multiscale_mse (R := Unit) (fun _ _ => [fin 1, fin 2])
        (fun _ _ _ _ _ _ => fin 7) ⟨false, 1, [fin 1, fin 2]⟩ 1 2 (fin 1)
        false () = nan
    ∧ _entropy_multiscale_mse (R := Unit) (fun _ _ => [fin 1, fin 2])
        (fun _ _ _ _ _ _ => fin 7) ⟨false, 1, [fin 1, fin 2]⟩ 1 0 (fin 1)
        false () = fin 7 :=
  ⟨(mse_threshold_and_single_eval _ _ _ _ _ _ _ _).1 (by decide),
   ((mse_threshold_and_single_eval _ _ _ _ _ _ _ _).2 (by decide)).trans rfl⟩

/-- Claim C5: in the composite combination, whenever every per-row
entropy estimate is non-finite (NaN, +inf or -inf in any mixture) the
per-scale value is NaN — despite the source's drop-test comparing
against NaN with IEEE equality, the fall-through mean of the emptied
row list is 0/0, i.e. NaN, never zero.  The entry-point helper
`_validmean` likewise returns NaN on an all-non-finite input. -/
theorem cmse_all_nonfinite_nan {R : Type}
    (rolling : PySignal → ℕ → List (List Fl))
    (sampEnF : List Fl → ℕ → ℕ → Fl → Bool → R → Fl)
    (signal : PySignal) (tau dimension : ℕ) (tolerance : Fl) (fuzzy : Bool)
    (rest : R)
    (h : ∀ row ∈ rolling signal tau,
      (sampEnF row 1 dimension tolerance fuzzy rest).isfinite = false) :
    _entropy_multiscale_cmse rolling sampEnF signal tau dimension tolerance
        fuzzy rest = nan
    ∧ ∀ xs : List Fl, (∀ v ∈ xs, v.isfinite = false) → _validmean xs = nan := by
  constructor
  · have hmap : ∀ v ∈ (rolling signal tau).map
        (fun row => sampEnF row 1 dimension tolerance fuzzy rest),
        v.isfinite = false := by
      intro v hv
      obtain ⟨row, hrow, hval⟩ := List.mem_map.mp hv
      exact hval ▸ h row hrow
    unfold _entropy_multiscale_cmse
    by_cases hsize : stackSize (rolling signal tau) < 10 ^ dimension
    · rw [if_pos hsize]
    · rw [if_neg hsize]
      by_cases hall :
          (((rolling signal tau).map
              (fun row => sampEnF row 1 dimension tolerance fuzzy rest)).filter
            (fun v => npEq v inf || npEq v ninf || npEq v nan)).length
          = ((rolling signal tau).map
              (fun row => sampEnF row 1 dimension tolerance fuzzy rest)).length
      · rw [if_pos hall]
      · rw [if_neg hall]
        have hnil : ((rolling signal tau).map
            (fun row => sampEnF row 1 dimension tolerance fuzzy rest)).filter
              (fun v => !npEq v inf && !npEq v ninf && !v.isnan) = [] := by
          rw [List.filter_congr (fun v _ => cmse_keep_pred_eq_isfinite v)]
          exact List.filter_eq_nil_iff.mpr (fun v hv => by simp [hmap v hv])
        rw [hnil]
        decide
  · intro xs hxs
    have hnil : xs.filter isfinite = [] :=
      List.filter_eq_nil_iff.mpr (fun v hv => by simp [hxs v hv])
    unfold _validmean
    rw [hnil]
    rfl

/-- Witness for C5: a mixture of one NaN row and one +inf row (so the
source's all-rows test is false and the emptied mean is taken) still
yields NaN, and `_validmean` of `[inf, nan]` is NaN. -/
theorem cmse_all_nonfinite_nan_witness :
    _entropy_multiscale_cmse (R := Unit)
        (fun _ _ => [[fin 0], [fin 1, fin 2]])
        (fun row _ _ _ _ _ => if row.length = 1 then nan else inf)
        ⟨false, 1, [fin 0, fin 1, fin 2]⟩ 1 0 (fin 1) false () = nan
    ∧ _validmean [inf, nan] = nan :=
  ⟨(cmse_all_nonfinite_nan _ _ _ _ _ _ _ _ (by decide)).1,
   (cmse_all_nonfinite_nan (R := Unit)
      (fun _ _ => [[fin 0], [fin 1, fin 2]])
      (fun row _ _ _ _ _ => if row.length = 1 then nan else inf)
      ⟨false, 1, [fin 0, fin 1, fin 2]⟩ 1 0 (fin 1) false ()
      (by decide)).2 [inf, nan] (by decide)⟩

/-- Claim C6: on 1-D input, when the per-scale profile has at least one
finite entry the returned index is the unit-spaced trapezoidal integral
of the finite entries, in order, divided by their count. -/
theorem entropy_multiscale_auc_of_finite {S T R : Type}
    (ext : Externals S T R) (signal : PySignal) (scale : S)
    (dimension : ℕ) (tolerance : T) (a c r f : Bool) (kwargs : KW R)
    (hnd : ¬(signal.isArrayLike = true ∧ 1 < signal.ndim))
    (hfin : finiteParts
      (msInfo ext signal scale dimension tolerance a kwargs).Value ≠ []) :
    entropy_multiscale ext signal scale dimension tolerance a c r f kwargs
      = Except.ok
          (fin (ratTrapz (finiteParts
              (msInfo ext signal scale dimension tolerance a kwargs).Value)
            / ((finiteParts
              (msInfo ext signal scale dimension tolerance a kwargs).Value).length : ℚ)),
           msInfo ext signal scale dimension tolerance a kwargs) := by
  unfold entropy_multiscale
  rw [if_neg hnd]
  show Except.ok
      (aggregateAUC (msInfo ext signal scale dimension tolerance a kwargs).Value,
       msInfo ext signal scale dimension tolerance a kwargs) = _
  rw [aggregateAUC_finite_profile _ hfin]

/-- Witness for C6: scales 1..3, per-scale values 1, 2, 3; the index is
the trapezoidal integral 4 divided by the count 3. -/
theorem entropy_multiscale_auc_of_finite_witness :
    entropy_multiscale (S := Unit) (T := Unit) (R := Unit)
        ⟨fun _ _ _ => [1, 2, 3], fun _ _ _ => fin 1,
         fun _ s _ => Coarse.one (List.replicate s (fin 0)),
         fun xs _ _ _ _ => fin (xs.length : ℚ), fun _ _ _ _ _ => nan⟩
        ⟨false, 1, [fin 0]⟩ () 2 () false false false false ⟨none, ()⟩
      = Except.ok
          (fin (ratTrapz (finiteParts
              (msInfo (S := Unit) (T := Unit) (R := Unit)
                ⟨fun _ _ _ => [1, 2, 3], fun _ _ _ => fin 1,
                 fun _ s _ => Coarse.one (List.replicate s (fin 0)),
                 fun xs _ _ _ _ => fin (xs.length : ℚ), fun _ _ _ _ _ => nan⟩
                ⟨false, 1, [fin 0]⟩ () 2 () false ⟨none, ()⟩).Value)
            / ((finiteParts
              (msInfo (S := Unit) (T := Unit) (R := Unit)
                ⟨fun _ _ _ => [1, 2, 3], fun _ _ _ => fin 1,
                 fun _ s _ => Coarse.one (List.replicate s (fin 0)),
                 fun xs _ _ _ _ => fin (xs.length : ℚ), fun _ _ _ _ _ => nan⟩
                ⟨false, 1, [fin 0]⟩ () 2 () false ⟨none, ()⟩).Value).length : ℚ)),
           msInfo (S := Unit) (T := Unit) (R := Unit)
                ⟨fun _ _ _ => [1, 2, 3], fun _ _ _ => fin 1,
                 fun _ s _ => Coarse.one (List.replicate s (fin 0)),
                 fun xs _ _ _ _ => fin (xs.length : ℚ), fun _ _ _ _ _ => nan⟩
                ⟨false, 1, [fin 0]⟩ () 2 () false ⟨none, ()⟩) :=
  entropy_multiscale_auc_of_finite _ _ _ _ _ _ _ _ _ _ (by decide) (by decide)

/-- Claim C7: on 1-D input, when every per-scale value is non-finite the
call still returns normally, and the index it returns is NaN — not zero
and not an error. -/
theorem entropy_multiscale_all_nonfinite_profile {S T R : Type}
    (ext : Externals S T R) (signal : PySignal) (scale : S)
    (dimension : ℕ) (tolerance : T) (a c r f : Bool) (kwargs : KW R)
    (hnd : ¬(signal.isArrayLike = true ∧ 1 < signal.ndim))
    (hval : ∀ v ∈ (msInfo ext signal scale dimension tolerance a kwargs).Value,
      v.isfinite = false) :
    entropy_multiscale ext signal scale dimension tolerance a c r f kwargs
      = Except.ok (nan, msInfo ext signal scale dimension tolerance a kwargs) := by
  unfold entropy_multiscale
  rw [if_neg hnd]
  show Except.ok
      (aggregateAUC (msInfo ext signal scale dimension tolerance a kwargs).Value,
       msInfo ext signal scale dimension tolerance a kwargs) = _
  rw [aggregateAUC_all_nonfinite _ hval]

/-- Witness for C7: two scales whose estimator values are NaN and +inf;
the call returns `ok` with a NaN index. -/
theorem entropy_multiscale_all_nonfinite_profile_witness :
    entropy_multiscale (S := Unit) (T := Unit) (R := Unit)
        ⟨fun _ _ _ => [1, 2], fun _ _ _ => fin 1,
         fun _ s _ => Coarse.one (List.replicate s (fin 0)),
         fun xs _ _ _ _ => if xs.length = 1 then nan else inf,
         fun _ _ _ _ _ => nan⟩
        ⟨false, 1, [fin 0]⟩ () 2 () false false false false ⟨none, ()⟩
      = Except.ok (nan,
          msInfo (S := Unit) (T := Unit) (R := Unit)
            ⟨fun _ _ _ => [1, 2], fun _ _ _ => fin 1,
             fun _ s _ => Coarse.one (List.replicate s (fin 0)),
             fun xs _ _ _ _ => if xs.length = 1 then nan else inf,
             fun _ _ _ _ _ => nan⟩
            ⟨false, 1, [fin 0]⟩ () 2 () false ⟨none, ()⟩) :=
  entropy_multiscale_all_nonfinite_profile _ _ _ _ _ _ _ _ _ _ (by decide)
    (by decide)

/-- Claim C8: a multidimensional array-like signal is rejected with the
validation error before anything is computed: the error is returned for
every choice of the external collaborators, so no tolerance, scale or
per-scale entropy computation can influence (or precede) it. -/
theorem entropy_multiscale_rejects_multidim {S T R : Type}
    (ext : Externals S T R) (signal : PySignal) (scale : S)
    (dimension : ℕ) (tolerance : T) (a c r f : Bool) (kwargs : KW R)
    (h : signal.isArrayLike = true ∧ 1 < signal.ndim) :
    entropy_multiscale ext signal scale dimension tolerance a c r f kwargs
      = Except.error multidimMsg := by
  unfold entropy_multiscale
  rw [if_pos h]

/-- Witness for C8: a 2-row matrix input is rejected. -/
theorem entropy_multiscale_rejects_multidim_witness :
    entropy_multiscale (S := Unit) (T := Unit) (R := Unit)
        ⟨fun _ _ _ => [1], fun _ _ _ => fin 1, fun _ _ _ => Coarse.one [],
         fun _ _ _ _ _ => fin 0, fun _ _ _ _ _ => fin 0⟩
        ⟨true, 2, [fin 1, fin 2, fin 3, fin 4]⟩ () 2 () false false false
        false ⟨none, ()⟩
      = Except.error multidimMsg :=
  entropy_multiscale_rejects_multidim _ _ _ _ _ _ _ _ _ _ (by decide)

/-- Claim C9: whenever the call returns normally, the info record holds
exactly one per-scale value per selected scale factor: the Scale and
Value sequences have equal length. -/
theorem entropy_multiscale_profile_lengths {S T R : Type}
    (ext : Externals S T R) (signal : PySignal) (scale : S)
    (dimension : ℕ) (tolerance : T) (a c r f : Bool) (kwargs : KW R)
    (p : Fl × MSInfo)
    (h : entropy_multiscale ext signal scale dimension tolerance a c r f
      kwargs = Except.ok p) :
    p.2.Scale.length = p.2.Value.length := by
  unfold entropy_multiscale at h
  split at h
  · exact absurd h (by simp)
  · injection h with h
    subst h
    show (msInfo ext signal scale dimension tolerance a kwargs).Scale.length
      = (msInfo ext signal scale dimension tolerance a kwargs).Value.length
    simp [msInfo]

/-- Witness for C9 on a concrete call with one scale factor. -/
theorem entropy_multiscale_profile_lengths_witness :
    ((fin 0, ⟨2, [1], fin 1, [fin 0]⟩) : Fl × MSInfo).2.Scale.length
      = ((fin 0, ⟨2, [1], fin 1, [fin 0]⟩) : Fl × MSInfo).2.Value.length :=
  entropy_multiscale_profile_lengths (S := Unit) (T := Unit) (R := Unit)
    ⟨fun _ _ _ => [1], fun _ _ _ => fin 1, fun _ _ _ => Coarse.one [],
     fun _ _ _ _ _ => fin 0, fun _ _ _ _ _ => fin 0⟩
    ⟨false, 1, [fin 0]⟩ () 2 () false false false false ⟨none, ()⟩
    (fin 0, ⟨2, [1], fin 1, [fin 0]⟩)
    (by simp [entropy_multiscale, msInfo, _run_algo, aggregateAUC, npTrapz,
      npMean, npSum, fdiv, fadd, isfinite, List.filter])

/-- Claim C10: a caller-supplied `delay` keyword is popped before the
per-scale loop and every estimator evaluation runs with `delay = 1`:
the call's result is unchanged under any change of the caller's delay
entry, and under any change of the estimators that preserves their
behaviour at `delay = 1`. -/
theorem entropy_multiscale_delay_fixed_to_one {S T R : Type}
    (gS : PySignal → S → ℕ → List ℕ) (tE : PySignal → T → ℕ → Fl)
    (cg : PySignal → ℕ → R → Coarse)
    (sE1 sE2 aE1 aE2 : List Fl → ℕ → ℕ → Fl → R → Fl)
    (signal : PySignal) (scale : S) (dimension : ℕ) (tolerance : T)
    (a c r f : Bool) (d1 d2 : Option ℤ) (rest : R)
    (hs : ∀ xs dim tol rr, sE1 xs 1 dim tol rr = sE2 xs 1 dim tol rr)
    (ha : ∀ xs dim tol rr, aE1 xs 1 dim tol rr = aE2 xs 1 dim tol rr) :
    entropy_multiscale ⟨gS, tE, cg, sE1, aE1⟩ signal scale dimension
        tolerance a c r f ⟨d1, rest⟩
      = entropy_multiscale ⟨gS, tE, cg, sE2, aE2⟩ signal scale dimension
        tolerance a c r f ⟨d2, rest⟩ := by
  have hinfo : msInfo ⟨gS, tE, cg, sE1, aE1⟩ signal scale dimension tolerance
      a ⟨d1, rest⟩
      = msInfo ⟨gS, tE, cg, sE2, aE2⟩ signal scale dimension tolerance a
        ⟨d2, rest⟩ := by
    unfold msInfo
    cases a with
    | false =>
        simp only [MSInfo.mk.injEq, true_and]
        exact List.map_congr_left (fun s _ =>
          _run_algo_delay1 _ _ _ _ _ _ hs)
    | true =>
        simp only [MSInfo.mk.injEq, true_and]
        exact List.map_congr_left (fun s _ =>
          _run_algo_delay1 _ _ _ _ _ _ ha)
  unfold entropy_multiscale
  rw [hinfo]

/-- Witness for C10: an estimator returning its delay argument yields
the same call result as the constant-one estimator, for caller delays 7
and none alike. -/
theorem entropy_multiscale_delay_fixed_to_one_witness :
    entropy_multiscale (S := Unit) (T := Unit) (R := Unit)
        ⟨fun _ _ _ => [1], fun _ _ _ => fin 1,
         fun _ _ _ => Coarse.one [fin 5],
         fun _ d _ _ _ => fin (d : ℚ), fun _ _ _ _ _ => nan⟩
        ⟨false, 1, [fin 5]⟩ () 2 () false false false false ⟨some 7, ()⟩
      = entropy_multiscale (S := Unit) (T := Unit) (R := Unit)
        ⟨fun _ _ _ => [1], fun _ _ _ => fin 1,
         fun _ _ _ => Coarse.one [fin 5],
         fun _ _ _ _ _ => fin 1, fun _ _ _ _ _ => nan⟩
        ⟨false, 1, [fin 5]⟩ () 2 () false false false false ⟨none, ()⟩ :=
  entropy_multiscale_delay_fixed_to_one _ _ _ _ _ _ _ _ _ _ _ _ _ _ _ _ _ _
    (fun _ _ _ _ => rfl) (fun _ _ _ _ => rfl)
